import Mathlib

/-!
Shallow embedding of the tailor `DataModel` (src/tailor/data_model.py) and
verification of the spec's claims about it.

Conventions of the embedding:
* A pandas cell value is `Value := Option Int`; `none` models NaN.
* Python dicts (`_col_names`, `_calculated_column_expression`,
  `_is_calculated_column_valid`) are association lists in insertion order;
  assignment (`dset`) overwrites in place or appends a fresh key at the end,
  exactly like a Python dict.
* The pandas DataFrame `_data` is an ordered association list from column key
  to value list; `self._data[k] = v` overwrites in place (or appends).
* A Python expression string is a deep-embedded `TExpr`; `TExpr.bad` stands
  for a string that fails to parse (or whose evaluation raises), and
  `TExpr.emptyE` stands for the empty string `""` (whose evaluation also
  fails, since `float(None)` raises).
* A Python function that can raise an uncaught exception returns `Option`;
  `none` is the exception escaping.
-/

/-- Cell value; `none` models pandas NaN (missing value). -/
abbrev Value := Option Int

/-- Deep embedding of the expression strings fed to the `asteval` interpreter.
`bad` is any string whose parse or evaluation raises; `emptyE` is the empty
string (its evaluation yields `None`, and `float(None)` raises). -/
inductive TExpr where
  | const : Int → TExpr
  | var : String → TExpr
  | add : TExpr → TExpr → TExpr
  | mul : TExpr → TExpr → TExpr
  | bad : TExpr
  | emptyE : TExpr
deriving DecidableEq, Repr

/-- Python `dict.get(k)` / `d[k]` read on an insertion-ordered dict. -/
def dget {α : Type} : List (String × α) → String → Option α
  | [], _ => none
  | (k', v) :: rest, k => if k' = k then some v else dget rest k

/-- Python `d[k] = v`: overwrite in place, or append a fresh key at the end. -/
def dset {α : Type} : List (String × α) → String → α → List (String × α)
  | [], k, v => [(k, v)]
  | (k', v') :: rest, k, v =>
    if k' = k then (k, v) :: rest else (k', v') :: dset rest k v

/-- Python `del d[k]` (first occurrence; keys are unique in practice). -/
def ddel {α : Type} : List (String × α) → String → List (String × α)
  | [], _ => []
  | (k', v') :: rest, k => if k' = k then rest else (k', v') :: ddel rest k

/-- Keys of a dict / DataFrame, in order. -/
def dkeys {α : Type} (m : List (String × α)) : List String := m.map (·.1)

/-- Python `list.insert(i, a)`: clamps `i` to the length (insert past the end
appends). -/
def insAt {α : Type} : Nat → α → List α → List α
  | _, a, [] => [a]
  | 0, a, x :: xs => a :: x :: xs
  | n + 1, a, x :: xs => x :: insAt n a xs

/-- Python `list.pop(i)`: returns the removed element and the remaining list,
or `none` (IndexError) when `i` is out of range. -/
def pyPop {α : Type} : List α → Nat → Option (α × List α)
  | [], _ => none
  | x :: xs, 0 => some (x, xs)
  | x :: xs, n + 1 => (pyPop xs n).map (fun p => (p.1, x :: p.2))

/-- NaN-propagating addition on cell values. -/
def vadd : Value → Value → Value
  | some a, some b => some (a + b)
  | _, _ => none

/-- NaN-propagating multiplication on cell values. -/
def vmul : Value → Value → Value
  | some a, some b => some (a * b)
  | _, _ => none

/-- Evaluation of an expression against an environment of column series, as
`asteval.Interpreter(usersyms=env)` does, followed by the float cast in
`recalculate_column`.  A scalar result is broadcast to `nrows` rows (pandas
column assignment broadcasts scalars).  `none` is any evaluation failure:
parse error, undefined variable name, or a raised exception. -/
def evalTExpr (nrows : Nat) (env : List (String × List Value)) : TExpr → Option (List Value)
  | .const c => some (List.replicate nrows (some c))
  | .var x => dget env x
  | .add a b => do
      let va ← evalTExpr nrows env a
      let vb ← evalTExpr nrows env b
      pure (List.zipWith vadd va vb)
  | .mul a b => do
      let va ← evalTExpr nrows env a
      let vb ← evalTExpr nrows env b
      pure (List.zipWith vmul va vb)
  | .bad => none
  | .emptyE => none

/-- State of `tailor.data_model.DataModel`: the DataFrame `_data` (ordered,
keyed by column label in normal operation), the `_col_names` dict
(label to display name), `_calculated_column_expression` (the stored value may
itself be Python `None`, hence `Option TExpr`), `_is_calculated_column_valid`,
and the label counter `_new_col_num`. -/
structure DataModel where
  data : List (String × List Value)
  colNames : List (String × String)
  calcExpr : List (String × Option TExpr)
  calcValid : List (String × Bool)
  newColNum : Nat
deriving DecidableEq, Repr

namespace DataModel

/-- Embeds `DataModel.__init__`. -/
def init : DataModel :=
  { data := [], colNames := [], calcExpr := [], calcValid := [], newColNum := 0 }

/-- Embeds `num_rows`: `len(self._data)` (all columns have equal length, so
the DataFrame index length is the first column's length, `0` when empty). -/
def num_rows (s : DataModel) : Nat :=
  (s.data.head?.map (fun p => p.2.length)).getD 0

/-- Embeds `num_columns`. -/
def num_columns (s : DataModel) : Nat := s.data.length

/-- Embeds `get_column_name`; `none` is the KeyError for an unknown label. -/
def get_column_name (s : DataModel) (label : String) : Option String :=
  dget s.colNames label

/-- Embeds `is_calculated_column`: `label in self._calculated_column_expression`. -/
def is_calculated_column (s : DataModel) (label : String) : Bool :=
  (dget s.calcExpr label).isSome

/-- Embeds `is_column_valid`: data columns are always valid; for a calculated
column the flag is looked up (`none` is the KeyError when the flag dict has no
entry).  The table data itself is never consulted. -/
def is_column_valid (s : DataModel) (label : String) : Option Bool :=
  if is_calculated_column s label then dget s.calcValid label else some true

/-- Embeds `get_column_expression`:
`self._calculated_column_expression.get(label, None)`.  A missing entry and a
stored Python `None` are both returned as `None`. -/
def get_column_expression (s : DataModel) (label : String) : Option TExpr :=
  (dget s.calcExpr label).bind id

/-- Embeds `self._data.columns.get_loc(col_name)`: index of the column key,
`none` is the KeyError. -/
def getLoc {α : Type} : List (String × α) → String → Option Nat
  | [], _ => none
  | (k', _) :: rest, k =>
    if k' = k then some 0 else (getLoc rest k).map (· + 1)

/-- Filtering step of `_get_accessible_columns`: the dict comprehension
`{k: data[k] for k in accessible if is_column_valid(k)}`, evaluated left to
right; a KeyError inside `is_column_valid` escapes (`none`). -/
def envOf (s : DataModel) : List (String × List Value) → Option (List (String × List Value))
  | [] => some []
  | (k, v) :: rest => do
      let ok ← is_column_valid s k
      let tail ← envOf s rest
      pure (if ok then (k, v) :: tail else tail)

/-- Embeds `_get_accessible_columns`: the columns strictly left of `colName`
in the DataFrame that are currently valid, keyed by their DataFrame column
key.  `none` is an escaping KeyError (unknown column, or a calculated column
without a validity entry). -/
def get_accessible_columns (s : DataModel) (colName : String) :
    Option (List (String × List Value)) := do
  let idx ← getLoc s.data colName
  envOf s (s.data.take idx)

/-- Expression-resolution step of `recalculate_column`: an explicit argument
is used as is; `None` fetches the stored expression (KeyError if absent). -/
def resolve_expression (s : DataModel) (colName : String) (expression : Option TExpr) :
    Option (Option TExpr) :=
  match expression with
  | some e => some (some e)
  | none => dget s.calcExpr colName

/-- Evaluation of a resolved stored expression: a stored Python `None` fails
to evaluate (`aeval(None)` raises inside the `try` block). -/
def evalStored (nrows : Nat) (env : List (String × List Value)) :
    Option TExpr → Option (List Value)
  | none => none
  | some e => evalTExpr nrows env e

/-- Embeds `recalculate_column`.  Outer `none` is an exception escaping from
outside the `try` block (expression fetch or environment construction);
otherwise returns the Python return flag and the new state: on evaluation
failure the flag dict gets `False` and the data is untouched, on success the
column is overwritten and the flag dict gets `True`. -/
def recalculate_column (s : DataModel) (colName : String) (expression : Option TExpr) :
    Option (Bool × DataModel) := do
  let es ← resolve_expression s colName expression
  let env ← get_accessible_columns s colName
  match evalStored (num_rows s) env es with
  | none =>
      pure (false, { s with calcValid := dset s.calcValid colName false })
  | some out =>
      pure (true, { s with data := dset s.data colName out,
                           calcValid := dset s.calcValid colName true })

/-- Embeds `recalculate_all_columns`: the body starts with an early `return`
marked FIXME, so the method does nothing at all. -/
def recalculate_all_columns (s : DataModel) : DataModel := s

/-- Embeds `update_column_expression`.  The argument is used both as a key of
`_col_names` (via `get_column_name`) and of `_calculated_column_expression`
(via `is_calculated_column`), so it is a column label; the expression is then
stored under the column *name* and `recalculate_column` is called with the
name.  On a successful recalculation the code calls `self.show_status`, a
method that does not exist on the class, so an AttributeError escapes
(`none`). -/
def update_column_expression (s : DataModel) (colIdx : String) (expression : TExpr) :
    Option DataModel := do
  let colName ← get_column_name s colIdx
  if is_calculated_column s colIdx then
    let s₁ := { s with calcExpr := dset s.calcExpr colName (some expression) }
    let r ← recalculate_column s₁ colName (some expression)
    if r.1 then none else pure r.2
  else
    pure s

/-- Embeds `normalize_column_name`: `re.sub(r"\W|^(?=\d)", "_", name)` — every
non-word character becomes an underscore, and a leading digit is prefixed
with an underscore. -/
def normalize_column_name (name : String) : String :=
  let mapped := name.data.map (fun c => if c.isAlphanum ∨ c = '_' then c else '_')
  match name.data with
  | c :: _ => if c.isDigit then String.mk ('_' :: mapped) else String.mk mapped
  | [] => String.mk mapped

/-- Embeds `rename_column`: looks up the old name (KeyError for an unknown
label escapes as `none`), stores the normalized new name, and falls off the
end of the function — the Python return value is `None`, modelled as the
first component `(none : Option String)`. -/
def rename_column (s : DataModel) (label : String) (name : String) :
    Option (Option String × DataModel) := do
  let _oldName ← get_column_name s label
  let newName := normalize_column_name name
  pure ((none : Option String),
        { s with colNames := dset s.colNames label newName })

/-- Embeds `_create_new_column_label`: increments `_new_col_num` and returns
the label string `col<N>`. -/
def create_new_column_label (s : DataModel) : String × DataModel :=
  let n := s.newColNum + 1
  ("col" ++ Nat.repr n, { s with newColNum := n })

/-- Minting loop of `insert_columns`: `[self._create_new_column_label() for _
in range(count)]`. -/
def mintLabels : DataModel → Nat → List String × DataModel
  | s, 0 => ([], s)
  | s, n + 1 =>
    let (lab, s') := create_new_column_label s
    let (rest, s'') := mintLabels s' n
    (lab :: rest, s'')

/-- Insertion loop of `insert_columns`: for each new label, insert a NaN
column at the next index and set `_col_names[label] = label`. -/
def insertLoop : DataModel → Nat → List String → DataModel
  | s, _, [] => s
  | s, idx, lab :: rest =>
    let s' := { s with
      data := insAt idx (lab, List.replicate s.num_rows (none : Value)) s.data,
      colNames := dset s.colNames lab lab }
    insertLoop s' (idx + 1) rest

/-- Embeds `insert_columns`: mints `count` fresh labels, inserts NaN columns
before position `column`, and returns the labels. -/
def insert_columns (s : DataModel) (column count : Nat) : List String × DataModel :=
  let (labels, s₁) := mintLabels s count
  (labels, insertLoop s₁ column labels)

/-- Embeds `insert_calculated_column`: inserts one fresh column and records a
stored expression of Python `None` and a validity flag of `False` for it. -/
def insert_calculated_column (s : DataModel) (column : Nat) : DataModel :=
  let (labels, s₁) := insert_columns s column 1
  match labels with
  | [lab] =>
    { s₁ with calcExpr := dset s₁.calcExpr lab none,
              calcValid := dset s₁.calcValid lab false }
  | _ => s₁

/-- Embeds `remove_columns`: drops the slice `columns[column : column+count]`
from the DataFrame, deletes their stored expressions (`KeyError` passed), and
calls the no-op `recalculate_all_columns`.  `_col_names` and the validity
dict are *not* cleaned up by the source. -/
def remove_columns (s : DataModel) (column count : Nat) : DataModel :=
  let labels := ((s.data.drop column).take count).map (·.1)
  let s₁ := { s with
    data := s.data.filter (fun p => decide (p.1 ∉ labels)),
    calcExpr := labels.foldl (fun m l => ddel m l) s.calcExpr }
  recalculate_all_columns s₁

/-- Embeds `move_column`: `cols.insert(dest, cols.pop(source))` on the column
order; `none` is the IndexError for an out-of-range `source`. -/
def move_column (s : DataModel) (source dest : Nat) : Option DataModel := do
  let (x, rest) ← pyPop s.data source
  pure { s with data := insAt dest x rest }

/-- Row count of a parsed CSV DataFrame (all its columns have equal length). -/
def importRows (importData : List (String × List Value)) : Nat :=
  match importData with
  | [] => 0
  | (_, v) :: _ => v.length

/-- Row slice `new_data.iloc[:n]` after a column-aligned `pd.concat`: each
column is truncated to `n` rows, and a column shorter than `n` is padded with
NaN (the outer join of `pd.concat` fills missing index positions with NaN). -/
def resizeVals (v : List Value) (n : Nat) : List Value :=
  v.take n ++ List.replicate (n - v.length) (none : Value)

/-- Embeds `read_and_concat_csv`, with the already-parsed CSV DataFrame
(normalized header names mapped to value lists) in place of the file read.
The method's first statement is `self.beginResetModel()`, an attribute that
does not exist on the class (`DataModel` has no base class and defines no
such method), so every call raises AttributeError before any mutation
(`none`, exactly like `show_status` in `update_column_expression`).  The
merge logic below that statement is unreachable dead code; translated
faithfully, it would drop existing DataFrame columns whose *key* occurs
among the imported column names, place the imported columns first, cut every
column to the imported row count, and finish with `endResetModel` (the same
AttributeError again) and the no-op `recalculate_all_columns`, never
touching the calculated-column bookkeeping. -/
def read_and_concat_csv (s : DataModel) (importData : List (String × List Value)) :
    Option DataModel := do
  let _ ← (none : Option Unit)
  let n := importRows importData
  let oldData := s.data.filter
    (fun p => !(importData.any (fun q => q.1 == p.1)))
  let newData := importData ++ oldData
  let finalData := newData.map (fun p => (p.1, resizeVals p.2 n))
  let _ ← (none : Option Unit)
  pure (recalculate_all_columns { s with data := finalData })

end DataModel

open DataModel

/-! ### Decimal rendering of naturals (for `col<N>` label injectivity) -/

/-- Structural form of the decimal digit list produced by `Nat.toDigitsCore`. -/
def digitsRec (n : Nat) : List Char :=
  if _h : n < 10 then [Nat.digitChar n]
  else digitsRec (n / 10) ++ [Nat.digitChar (n % 10)]
decreasing_by
  exact Nat.div_lt_self (by omega) (by omega)

/-- Inverse of `Nat.digitChar` on decimal digits. -/
def charVal (c : Char) : Nat :=
  if c = '0' then 0 else if c = '1' then 1 else if c = '2' then 2
  else if c = '3' then 3 else if c = '4' then 4 else if c = '5' then 5
  else if c = '6' then 6 else if c = '7' then 7 else if c = '8' then 8 else 9

/-- Decimal value of a digit string, most significant digit first. -/
def valAux : List Char → Nat → Nat
  | [], acc => acc
  | c :: cs, acc => valAux cs (acc * 10 + charVal c)

/-- Label minted for the `N`-th created column: `f"col{N}"`. -/
def mkLabel (n : Nat) : String := "col" ++ Nat.repr n

/-! ### Operation transcripts (for the label-uniqueness invariant) -/

/-- Structural column operations of the data model, for reasoning about
arbitrary operation sequences. -/
inductive TableOp where
  | insertCols (column count : Nat)
  | insertCalc (column : Nat)
  | removeCols (column count : Nat)
  | moveCol (source dest : Nat)
  | renameCol (label name : String)
deriving Repr

/-- One operation applied to the model.  An out-of-range `move_column` or a
rename of an unknown label raises in Python; the state is then unchanged
(structural errors are all-or-nothing). -/
def stepOp (s : DataModel) : TableOp → DataModel
  | .insertCols c n => (insert_columns s c n).2
  | .insertCalc c => insert_calculated_column s c
  | .removeCols c n => remove_columns s c n
  | .moveCol a b => (move_column s a b).getD s
  | .renameCol l n => ((rename_column s l n).map (fun p => p.2)).getD s

/-- Labels freshly minted by one operation. -/
def opMints (s : DataModel) : TableOp → List String
  | .insertCols _ n => (mintLabels s n).1
  | .insertCalc _ => (mintLabels s 1).1
  | _ => []

/-- Runs a transcript while recording every label ever minted. -/
def runOps : DataModel × List String → List TableOp → DataModel × List String
  | t, [] => t
  | (s, hist), op :: rest => runOps (stepOp s op, hist ++ opMints s op) rest

/-- A label of the form `col<N>` for some `1 ≤ N ≤ c`. -/
def GoodLabel (c : Nat) (l : String) : Prop :=
  ∃ n, 1 ≤ n ∧ n ≤ c ∧ l = mkLabel n

/-- Invariant tying the model to its minting history: no label is ever minted
twice, the table's column keys all come from the history, they are pairwise
distinct, and every minted label is `col<N>` with `N` at most the counter. -/
def LabelInv : DataModel × List String → Prop
  | (s, hist) =>
    hist.Nodup ∧ (∀ l ∈ dkeys s.data, l ∈ hist) ∧
    (dkeys s.data).Nodup ∧ (∀ l ∈ hist, GoodLabel s.newColNum l)

/-- Three-column table: `col1` a data column, `col2` and `col3` calculated,
all names equal to labels, `col3` depending on `col2`, all values stale. -/
def sCascade : DataModel :=
  { data := [("col1", [some 1]), ("col2", [some 5]), ("col3", [some 999])],
    colNames := [("col1", "col1"), ("col2", "col2"), ("col3", "col3")],
    calcExpr := [("col2", some (.const 5)), ("col3", some (.var "col2"))],
    calcValid := [("col2", true), ("col3", true)],
    newColNum := 3 }

/-- Bare-bones table of the test suite: `col1`/`col2` data named `x`/`y`,
`col3` calculated named `z` with stored expression `col2 + 5`, plus `col5`
calculated with the empty stored expression. -/
def sBare : DataModel :=
  { data := [("col1", [some 1]), ("col2", [some 6]), ("col3", [some 11]),
             ("col5", [some 0])],
    colNames := [("col2", "y"), ("col3", "z"), ("col1", "x"), ("col5", "u")],
    calcExpr := [("col3", some (.add (.var "col2") (.const 5))),
                 ("col5", some .emptyE)],
    calcValid := [("col3", true), ("col5", false)],
    newColNum := 5 }

/-- Plain three-column table `[col1, col2, col3]`. -/
def sMove : DataModel :=
  { data := [("col1", [some 1]), ("col2", [some 2]), ("col3", [some 3])],
    colNames := [("col1", "col1"), ("col2", "col2"), ("col3", "col3")],
    calcExpr := [], calcValid := [], newColNum := 3 }

/-- Five-row table `x, y, z(calc), yerr(calc)` of merge scenario D. -/
def sMerge : DataModel :=
  { data := [("col1", [some 0, some 1, some 2, some 3, some 4]),
             ("col2", [some 0, some 1, some 4, some 9, some 16]),
             ("col3", [some 1, some 2, some 3, some 4, some 5]),
             ("col4", [some 9, some 9, some 9, some 9, some 9])],
    colNames := [("col1", "x"), ("col2", "y"), ("col3", "z"), ("col4", "yerr")],
    calcExpr := [("col3", some (.add (.var "col1") (.const 1))),
                 ("col4", some (.const 9))],
    calcValid := [("col3", true), ("col4", true)],
    newColNum := 4 }

/-- Four-row parsed CSV with columns `x, t, z` of merge scenario D. -/
def mergeImport : List (String × List Value) :=
  [("x", [some 1, some 3, some 5, some 7]),
   ("t", [some 1, some 2, some 3, some 4]),
   ("z", [some 0, some 1, some 2, some 3])]


/-! ### Helper lemmas about the dict and list primitives -/

theorem insAt_perm {α : Type} (n : Nat) (a : α) (l : List α) :
    List.Perm (insAt n a l) (a :: l) := by
  induction l generalizing n with
  | nil => cases n <;> simp [insAt]
  | cons x xs ih =>
    cases n with
    | zero => simp [insAt]
    | succ m =>
      show List.Perm (x :: insAt m a xs) (a :: x :: xs)
      exact ((ih m).cons x).trans (List.Perm.swap a x xs)

/-! ### Injectivity of the decimal label rendering -/

theorem toDigitsCore_eq_digitsRec (fuel : Nat) :
    ∀ n ds, n < fuel → Nat.toDigitsCore 10 fuel n ds = digitsRec n ++ ds := by
  induction fuel with
  | zero => intro n ds h; omega
  | succ fuel ih =>
    intro n ds h
    by_cases h10 : n / 10 = 0
    · have hn : n < 10 := by omega
      simp only [Nat.toDigitsCore, h10, if_true]
      rw [digitsRec, dif_pos hn, Nat.mod_eq_of_lt hn]
      rfl
    · have hge : ¬ n < 10 := by omega
      simp only [Nat.toDigitsCore, h10, if_false]
      rw [digitsRec, dif_neg hge, ih (n / 10) _ (by omega)]
      simp

theorem repr_eq_digitsRec (n : Nat) : Nat.repr n = String.mk (digitsRec n) := by
  show (Nat.toDigits 10 n).asString = String.mk (digitsRec n)
  rw [Nat.toDigits, toDigitsCore_eq_digitsRec (n + 1) n [] (by omega), List.append_nil]
  rfl

theorem valAux_append (l₁ l₂ : List Char) :
    ∀ acc, valAux (l₁ ++ l₂) acc = valAux l₂ (valAux l₁ acc) := by
  induction l₁ with
  | nil => intro acc; rfl
  | cons c cs ih =>
    intro acc
    simp only [List.cons_append, valAux]
    exact ih _

theorem charVal_digitChar (d : Nat) (h : d < 10) : charVal (Nat.digitChar d) = d := by
  interval_cases d <;> decide

theorem valAux_digitsRec (n : Nat) :
    ∀ acc, valAux (digitsRec n) acc = acc * 10 ^ (digitsRec n).length + n := by
  induction n using Nat.strong_induction_on with
  | _ n ih =>
    intro acc
    by_cases h : n < 10
    · rw [digitsRec, dif_pos h]
      simp only [valAux, charVal_digitChar n h, List.length_singleton, pow_one]
    · rw [digitsRec, dif_neg h]
      rw [valAux_append]
      simp only [valAux]
      rw [charVal_digitChar _ (Nat.mod_lt _ (by omega)),
        ih (n / 10) (Nat.div_lt_self (by omega) (by omega)) acc,
        List.length_append, List.length_singleton, pow_succ]
      generalize (10 : Nat) ^ (digitsRec (n / 10)).length = P
      have hmul : acc * (P * 10) = acc * P * 10 := by ring
      rw [hmul]
      generalize acc * P = Q
      omega

theorem digitsRec_injective {a b : Nat} (h : digitsRec a = digitsRec b) : a = b := by
  have ha := valAux_digitsRec a 0
  have hb := valAux_digitsRec b 0
  rw [h] at ha
  omega

theorem mkLabel_injective {a b : Nat} (h : mkLabel a = mkLabel b) : a = b := by
  apply digitsRec_injective
  have hd : (mkLabel a).data = (mkLabel b).data := congrArg String.data h
  simp only [mkLabel, repr_eq_digitsRec, String.data_append] at hd
  exact List.append_cancel_left hd

/-! ### Claim theorems: code evaluations on failing inputs -/

/-- C4: the claim says stored expressions use label tokens
(`update_column_expression` translates names to labels before storing, and
`get_column_expression` substitutes names back, reporting the empty
expression as `None`).  The code does none of this: on `sBare`,
`get_column_expression("col3")` returns the stored `col2 + 5` verbatim
instead of the display form `y + 5`, the empty stored expression of `col5`
is returned as itself instead of `None`, and `update_column_expression`
called on `col3` with the display expression stores under the column *name*
and then raises a KeyError, with no token translation anywhere. -/
theorem C4_expressions_stored_and_returned_verbatim :
    get_column_expression sBare "col3" =
      some (TExpr.add (TExpr.var "col2") (TExpr.const 5)) ∧
    get_column_expression sBare "col5" = some TExpr.emptyE ∧
    update_column_expression sBare "col3"
      (TExpr.add (TExpr.var "y") (TExpr.const 5)) = none := by
  decide

/-- C6: the claim says a merge overwrites name-matching columns, demotes a
previously calculated matching column to a plain data column, places the
CSV columns first and truncates to the imported row count.  The code never
gets there: its first statement calls `self.beginResetModel`, which does not
exist on the class, so on merge scenario D — and on every other input — the
call raises AttributeError before any mutation, leaving the table untouched:
nothing is overwritten, demoted, reordered or truncated, and `col3` keeps
its calculated-column entry. -/
theorem C6_merge_raises_attribute_error :
    read_and_concat_csv sMerge mergeImport = none ∧
    (∀ (s : DataModel) (importData : List (String × List Value)),
      read_and_concat_csv s importData = none) ∧
    is_calculated_column sMerge "col3" = true ∧
    dkeys sMerge.data = ["col1", "col2", "col3", "col4"] := by
  refine ⟨rfl, fun s importData => rfl, by decide, by decide⟩

/-- C7: the claim says `rename_column` returns the normalized name.  The
code performs the normalization and stores the new name, leaving the label,
the stored expressions and the table keys unchanged, but falls off the end
of the function: the Python return value is `None`, not the normalized
name. -/
theorem C7_rename_column_returns_none :
    (rename_column sBare "col1" "t null").map (fun p => p.1) = some none ∧
    (rename_column sBare "col1" "t null").map
        (fun p => get_column_name p.2 "col1") = some (some "t_null") ∧
    (rename_column sBare "col1" "t null").map
        (fun p => (dkeys p.2.data, p.2.calcExpr)) =
      some (dkeys sBare.data, sBare.calcExpr) ∧
    normalize_column_name "1x" = "_1x" ∧
    normalize_column_name "t x" = "t_x" := by
  decide

/-- C10: for every label without a calculated-column entry — including labels
naming no existing column — `is_column_valid` returns `True` without
raising; it consults only the calculated-column bookkeeping, so its result
is unchanged under arbitrary replacement of the table data (and of the name
map and counter). -/
theorem C10_is_column_valid_ignores_table (s : DataModel) (label : String)
    (h : dget s.calcExpr label = none) :
    is_column_valid s label = some true ∧
    ∀ d cn cnt, is_column_valid
      { s with data := d, colNames := cn, newColNum := cnt } label = some true := by
  constructor
  · simp [is_column_valid, is_calculated_column, h]
  · intro d cn cnt
    simp [is_column_valid, is_calculated_column, h]

/-- C10 witness: on `sCascade`, the label `ghost` names no column at all and
has no calculated-column entry, yet `is_column_valid` returns `True` and
keeps doing so when the table data is replaced wholesale. -/
theorem C10_witness :
    is_column_valid sCascade "ghost" = some true ∧
    ∀ d cn cnt, is_column_valid
      { sCascade with data := d, colNames := cn, newColNum := cnt } "ghost" =
        some true :=
  C10_is_column_valid_ignores_table sCascade "ghost" (by decide)

/-! ### Lemmas about `pyPop` and `insAt`, and the move-column claim -/

theorem pyPop_isSome {α : Type} {l : List α} {i : Nat} (h : i < l.length) :
    (pyPop l i).isSome := by
  induction l generalizing i with
  | nil => simp at h
  | cons x xs ih =>
    cases i with
    | zero => simp [pyPop]
    | succ n =>
      have h' : n < xs.length := by simpa using h
      cases hp : pyPop xs n with
      | none =>
        have := ih h'
        rw [hp] at this
        simp at this
      | some p => simp [pyPop, hp]

theorem pyPop_some {α : Type} {l : List α} {i : Nat} {x : α} {rest : List α}
    (h : pyPop l i = some (x, rest)) :
    l[i]? = some x ∧ rest = l.eraseIdx i ∧ l.length = rest.length + 1 := by
  induction l generalizing i rest with
  | nil => simp [pyPop] at h
  | cons y ys ih =>
    cases i with
    | zero =>
      simp only [pyPop, Option.some.injEq, Prod.mk.injEq] at h
      obtain ⟨h1, h2⟩ := h
      subst h1
      subst h2
      simp
    | succ n =>
      cases hp : pyPop ys n with
      | none =>
        rw [pyPop, hp] at h
        simp at h
      | some p =>
        obtain ⟨a, tl⟩ := p
        rw [pyPop, hp] at h
        simp only [Option.map, Option.some.injEq, Prod.mk.injEq] at h
        obtain ⟨h1, h2⟩ := h
        subst h1
        subst h2
        obtain ⟨g1, g2, g3⟩ := ih hp
        refine ⟨by simpa using g1, ?_, ?_⟩
        · rw [List.eraseIdx_cons_succ, g2]
        · simp [g3]

theorem insAt_length {α : Type} (n : Nat) (a : α) (l : List α) :
    (insAt n a l).length = l.length + 1 := by
  induction l generalizing n with
  | nil => cases n <;> simp [insAt]
  | cons x xs ih =>
    cases n with
    | zero => simp [insAt]
    | succ m => simp [insAt, ih]

theorem insAt_getElem {α : Type} {n : Nat} {a : α} {l : List α} (h : n ≤ l.length) :
    (insAt n a l)[n]? = some a := by
  induction l generalizing n with
  | nil =>
    have hn : n = 0 := by simpa using h
    subst hn
    simp [insAt]
  | cons x xs ih =>
    cases n with
    | zero => simp [insAt]
    | succ m =>
      simp only [insAt, List.getElem?_cons_succ]
      exact ih (by simpa using h)

theorem insAt_eraseIdx {α : Type} {n : Nat} {a : α} {l : List α} (h : n ≤ l.length) :
    (insAt n a l).eraseIdx n = l := by
  induction l generalizing n with
  | nil =>
    have hn : n = 0 := by simpa using h
    subst hn
    simp [insAt]
  | cons x xs ih =>
    cases n with
    | zero => simp [insAt]
    | succ m =>
      simp only [insAt, List.eraseIdx_cons_succ]
      rw [ih (by simpa using h)]

/-- C5: for every table and in-range pair `(source, dest)`, `move_column`
succeeds and yields a column ordering in which the moved column sits at
index `dest` of the final ordering, while removing position `dest` from the
result gives exactly the original table without position `source` — all
other columns keep their relative order.  The column count is preserved. -/
theorem C5_move_column_final_position (s : DataModel) (source dest : Nat)
    (hs : source < s.num_columns) (hd : dest < s.num_columns) :
    ∃ s', move_column s source dest = some s' ∧
      s'.num_columns = s.num_columns ∧
      s'.data[dest]? = s.data[source]? ∧
      s'.data.eraseIdx dest = s.data.eraseIdx source := by
  have hpop := pyPop_isSome (l := s.data) (i := source) hs
  obtain ⟨⟨x, rest⟩, hx⟩ := Option.isSome_iff_exists.mp hpop
  obtain ⟨g1, g2, g3⟩ := pyPop_some hx
  have hdle : dest ≤ rest.length := by
    have : dest < s.data.length := hd
    omega
  refine ⟨{ s with data := insAt dest x rest }, ?_, ?_, ?_, ?_⟩
  · simp [move_column, hx]
  · show (insAt dest x rest).length = s.data.length
    rw [insAt_length]
    omega
  · show (insAt dest x rest)[dest]? = s.data[source]?
    rw [insAt_getElem hdle, g1]
  · show (insAt dest x rest).eraseIdx dest = s.data.eraseIdx source
    rw [insAt_eraseIdx hdle, g2]

/-- C5 witness: on the three-column table, `move_column(0, 2)` is in range
and yields the final order `[col2, col3, col1]` — the destination index is
the post-move position. -/
theorem C5_witness :
    (∃ s', move_column sMove 0 2 = some s' ∧
      s'.num_columns = sMove.num_columns ∧
      s'.data[2]? = sMove.data[0]? ∧
      s'.data.eraseIdx 2 = sMove.data.eraseIdx 0) ∧
    (move_column sMove 0 2).map (fun s => dkeys s.data) =
      some ["col2", "col3", "col1"] :=
  ⟨C5_move_column_final_position sMove 0 2 (by decide) (by decide), by decide⟩

/-! ### The error-absorption contract of `recalculate_column` -/

theorem goodLabel_mono {c c' : Nat} (h : c ≤ c') {l : String}
    (hg : GoodLabel c l) : GoodLabel c' l := by
  obtain ⟨n, h1, h2, h3⟩ := hg
  exact ⟨n, h1, le_trans h2 h, h3⟩

theorem mintLabels_state (s : DataModel) (n : Nat) :
    (mintLabels s n).2 = { s with newColNum := s.newColNum + n } := by
  induction n generalizing s with
  | zero =>
    show s = { s with newColNum := s.newColNum + 0 }
    simp
  | succ m ih =>
    show (mintLabels { s with newColNum := s.newColNum + 1 } m).2 = _
    have harith : s.newColNum + 1 + m = s.newColNum + (m + 1) := by omega
    rw [ih, harith]

theorem mintLabels_labels (s : DataModel) (n : Nat) :
    (mintLabels s n).1 = (List.range' (s.newColNum + 1) n).map mkLabel := by
  induction n generalizing s with
  | zero => rfl
  | succ m ih =>
    show mkLabel (s.newColNum + 1) ::
        (mintLabels { s with newColNum := s.newColNum + 1 } m).1 = _
    rw [ih, List.range'_succ]
    simp

theorem mintLabels_nodup (s : DataModel) (n : Nat) : (mintLabels s n).1.Nodup := by
  rw [mintLabels_labels]
  exact (List.nodup_range' _ _).map (fun a b h => mkLabel_injective h)

theorem mintLabels_mem {s : DataModel} {n : Nat} {l : String}
    (h : l ∈ (mintLabels s n).1) :
    ∃ j, s.newColNum + 1 ≤ j ∧ j < s.newColNum + 1 + n ∧ l = mkLabel j := by
  rw [mintLabels_labels] at h
  obtain ⟨j, hj, rfl⟩ := List.mem_map.mp h
  obtain ⟨h1, h2⟩ := List.mem_range'_1.mp hj
  exact ⟨j, h1, h2, rfl⟩

theorem map_insAt {α β : Type} (f : α → β) (n : Nat) (a : α) (l : List α) :
    (insAt n a l).map f = insAt n (f a) (l.map f) := by
  induction l generalizing n with
  | nil => cases n <;> simp [insAt]
  | cons x xs ih =>
    cases n with
    | zero => simp [insAt]
    | succ m => simp [insAt, ih]

theorem insertLoop_calcExpr (labs : List String) :
    ∀ (s : DataModel) (idx : Nat), (insertLoop s idx labs).calcExpr = s.calcExpr := by
  induction labs with
  | nil => intro s idx; rfl
  | cons lab rest ih => intro s idx; exact ih _ _

theorem insertLoop_calcValid (labs : List String) :
    ∀ (s : DataModel) (idx : Nat), (insertLoop s idx labs).calcValid = s.calcValid := by
  induction labs with
  | nil => intro s idx; rfl
  | cons lab rest ih => intro s idx; exact ih _ _

theorem insertLoop_counter (labs : List String) :
    ∀ (s : DataModel) (idx : Nat), (insertLoop s idx labs).newColNum = s.newColNum := by
  induction labs with
  | nil => intro s idx; rfl
  | cons lab rest ih => intro s idx; exact ih _ _

theorem insertLoop_keys_perm (labs : List String) :
    ∀ (s : DataModel) (idx : Nat),
      List.Perm (dkeys (insertLoop s idx labs).data) (labs ++ dkeys s.data) := by
  induction labs with
  | nil => intro s idx; simp [insertLoop]
  | cons lab rest ih =>
    intro s idx
    refine (ih _ _).trans ?_
    have h1 : List.Perm
        (dkeys (insAt idx (lab, List.replicate s.num_rows (none : Value)) s.data))
        (lab :: dkeys s.data) := by
      show List.Perm ((insAt idx _ s.data).map _) _
      rw [map_insAt]
      exact insAt_perm _ _ _
    refine (List.Perm.append_left rest h1).trans ?_
    exact List.perm_middle

theorem pyPop_perm {α : Type} {l : List α} {i : Nat} {x : α} {rest : List α}
    (h : pyPop l i = some (x, rest)) : List.Perm l (x :: rest) := by
  induction l generalizing i rest with
  | nil => simp [pyPop] at h
  | cons y ys ih =>
    cases i with
    | zero =>
      simp only [pyPop, Option.some.injEq, Prod.mk.injEq] at h
      obtain ⟨h1, h2⟩ := h
      subst h1
      subst h2
      exact List.Perm.refl _
    | succ n =>
      cases hp : pyPop ys n with
      | none => rw [pyPop, hp] at h; simp at h
      | some p =>
        obtain ⟨a, tl⟩ := p
        rw [pyPop, hp] at h
        simp only [Option.map, Option.some.injEq, Prod.mk.injEq] at h
        obtain ⟨h1, h2⟩ := h
        subst h1
        subst h2
        exact ((ih hp).cons y).trans (List.Perm.swap _ _ _)

theorem labelInv_insert_columns {s : DataModel} {hist : List String}
    (hinv : LabelInv (s, hist)) (c n : Nat) :
    LabelInv ((insert_columns s c n).2, hist ++ (mintLabels s n).1) := by
  obtain ⟨hnodup, hsub, hknodup, hgood⟩ := hinv
  have hperm : List.Perm (dkeys (insert_columns s c n).2.data)
      ((mintLabels s n).1 ++ dkeys s.data) := by
    refine (insertLoop_keys_perm (mintLabels s n).1 (mintLabels s n).2 c).trans ?_
    rw [mintLabels_state]
  have hcnt : (insert_columns s c n).2.newColNum = s.newColNum + n := by
    show (insertLoop (mintLabels s n).2 c (mintLabels s n).1).newColNum = _
    rw [insertLoop_counter, mintLabels_state]
  have hfresh : ∀ l ∈ (mintLabels s n).1, ¬ l ∈ hist := by
    intro l hl hmem
    obtain ⟨j, hj1, hj2, rfl⟩ := mintLabels_mem hl
    obtain ⟨m, hm1, hm2, hml⟩ := hgood _ hmem
    have := mkLabel_injective hml
    omega
  have hdisj : List.Disjoint hist (mintLabels s n).1 := by
    intro a ha hb
    exact hfresh a hb ha
  have hkdisj : List.Disjoint (mintLabels s n).1 (dkeys s.data) := by
    intro a ha hb
    exact hfresh a ha (hsub a hb)
  refine ⟨hnodup.append (mintLabels_nodup s n) hdisj, ?_, ?_, ?_⟩
  · intro l hl
    rcases List.mem_append.mp (hperm.subset hl) with h | h
    · exact List.mem_append_right hist h
    · exact List.mem_append_left _ (hsub l h)
  · exact hperm.nodup_iff.mpr ((mintLabels_nodup s n).append hknodup hkdisj)
  · intro l hl
    rw [hcnt]
    rcases List.mem_append.mp hl with h | h
    · exact goodLabel_mono (by omega) (hgood l h)
    · obtain ⟨j, hj1, hj2, rfl⟩ := mintLabels_mem h
      exact ⟨j, by omega, by omega, rfl⟩

theorem labelInv_of_eq {t t' : DataModel} {hist : List String}
    (h : LabelInv (t, hist)) (hdata : t'.data = t.data)
    (hcnt : t'.newColNum = t.newColNum) : LabelInv (t', hist) := by
  obtain ⟨h1, h2, h3, h4⟩ := h
  refine ⟨h1, ?_, ?_, ?_⟩
  · rw [hdata]; exact h2
  · rw [hdata]; exact h3
  · rw [hcnt]; exact h4

theorem labelInv_step {s : DataModel} {hist : List String}
    (hinv : LabelInv (s, hist)) (op : TableOp) :
    LabelInv (stepOp s op, hist ++ opMints s op) := by
  cases op with
  | insertCols c n => exact labelInv_insert_columns hinv c n
  | insertCalc c =>
    exact labelInv_of_eq (labelInv_insert_columns hinv c 1) rfl rfl
  | removeCols c n =>
    rw [show opMints s (TableOp.removeCols c n) = [] from rfl, List.append_nil]
    obtain ⟨h1, h2, h3, h4⟩ := hinv
    have hsl : List.Sublist (dkeys (stepOp s (TableOp.removeCols c n)).data)
        (dkeys s.data) := (List.filter_sublist _).map _
    refine ⟨h1, ?_, ?_, h4⟩
    · intro l hl
      exact h2 l (hsl.subset hl)
    · exact h3.sublist hsl
  | moveCol a b =>
    rw [show opMints s (TableOp.moveCol a b) = [] from rfl, List.append_nil]
    cases hp : pyPop s.data a with
    | none =>
      have : stepOp s (TableOp.moveCol a b) = s := by
        simp [stepOp, move_column, hp]
      rw [this]
      exact hinv
    | some p =>
      obtain ⟨x, rest⟩ := p
      have hstep : stepOp s (TableOp.moveCol a b) =
          { s with data := insAt b x rest } := by
        simp [stepOp, move_column, hp]
      rw [hstep]
      obtain ⟨h1, h2, h3, h4⟩ := hinv
      have hkperm : List.Perm (dkeys (insAt b x rest)) (dkeys s.data) := by
        have hp1 : List.Perm (dkeys (insAt b x rest)) (x.1 :: dkeys rest) := by
          show List.Perm ((insAt b x rest).map _) _
          rw [map_insAt]
          exact insAt_perm _ _ _
        have hp2 : List.Perm (dkeys s.data) (x.1 :: dkeys rest) :=
          List.Perm.map (fun q : String × List Value => q.1) (pyPop_perm hp)
        exact hp1.trans hp2.symm
      refine ⟨h1, ?_, ?_, h4⟩
      · intro l hl
        exact h2 l (hkperm.subset hl)
      · exact hkperm.nodup_iff.mpr h3
  | renameCol l n =>
    rw [show opMints s (TableOp.renameCol l n) = [] from rfl, List.append_nil]
    cases hg : dget s.colNames l with
    | none =>
      have : stepOp s (TableOp.renameCol l n) = s := by
        simp [stepOp, rename_column, get_column_name, hg]
      rw [this]
      exact hinv
    | some old =>
      have hstep : stepOp s (TableOp.renameCol l n) =
          { s with colNames := dset s.colNames l (normalize_column_name n) } := by
        simp [stepOp, rename_column, get_column_name, hg]
      rw [hstep]
      exact labelInv_of_eq hinv rfl rfl

theorem labelInv_runOps {t : DataModel × List String} (hinv : LabelInv t)
    (ops : List TableOp) : LabelInv (runOps t ops) := by
  induction ops generalizing t with
  | nil => exact hinv
  | cons op rest ih =>
    obtain ⟨s, hist⟩ := t
    exact ih (labelInv_step hinv op)

theorem stepOp_counter (s : DataModel) (op : TableOp) :
    s.newColNum ≤ (stepOp s op).newColNum := by
  cases op with
  | insertCols c n =>
    have h : (stepOp s (TableOp.insertCols c n)).newColNum = s.newColNum + n := by
      show (insertLoop (mintLabels s n).2 c (mintLabels s n).1).newColNum = _
      rw [insertLoop_counter, mintLabels_state]
    omega
  | insertCalc c =>
    have h : (stepOp s (TableOp.insertCalc c)).newColNum = s.newColNum + 1 := by
      show (insertLoop (mintLabels s 1).2 c (mintLabels s 1).1).newColNum = _
      rw [insertLoop_counter, mintLabels_state]
    omega
  | removeCols c n => exact le_refl _
  | moveCol a b =>
    cases hp : pyPop s.data a with
    | none => simp [stepOp, move_column, hp]
    | some p =>
      obtain ⟨x, rest⟩ := p
      simp [stepOp, move_column, hp]
  | renameCol l n =>
    cases hg : dget s.colNames l with
    | none => simp [stepOp, rename_column, get_column_name, hg]
    | some old => simp [stepOp, rename_column, get_column_name, hg]

theorem runOps_counter (ops : List TableOp) :
    ∀ t : DataModel × List String, t.1.newColNum ≤ (runOps t ops).1.newColNum := by
  induction ops with
  | nil => intro t; exact le_refl _
  | cons op rest ih =>
    intro t
    obtain ⟨s, hist⟩ := t
    exact le_trans (stepOp_counter s op) (ih (stepOp s op, hist ++ opMints s op))

/-- C8: over every sequence of column operations started from a fresh table,
the history of minted labels has no duplicate — a label is never reused,
even after the column bearing it was removed; the table's column labels all
come from that history and are pairwise distinct; every minted label has the
form `col<N>` with `1 ≤ N ≤` the current counter; and the counter is
monotone under any further operations. -/
theorem C8_label_uniqueness (ops : List TableOp) :
    (runOps (DataModel.init, []) ops).2.Nodup ∧
    (∀ l ∈ dkeys (runOps (DataModel.init, []) ops).1.data,
      l ∈ (runOps (DataModel.init, []) ops).2) ∧
    (dkeys (runOps (DataModel.init, []) ops).1.data).Nodup ∧
    (∀ l ∈ (runOps (DataModel.init, []) ops).2, ∃ n, 1 ≤ n ∧
      n ≤ (runOps (DataModel.init, []) ops).1.newColNum ∧ l = mkLabel n) ∧
    ∀ more, (runOps (DataModel.init, []) ops).1.newColNum ≤
      (runOps (runOps (DataModel.init, []) ops) more).1.newColNum := by
  have hinit : LabelInv (DataModel.init, []) := by
    refine ⟨List.nodup_nil, ?_, ?_, ?_⟩ <;> simp [DataModel.init, dkeys]
  obtain ⟨h1, h2, h3, h4⟩ := labelInv_runOps hinit ops
  exact ⟨h1, h2, h3, h4, fun more => runOps_counter more _⟩

/-- C8 witness: inserting two columns, removing the first, then inserting
another mints `col1, col2, col3`; the history has no duplicates (the removed
`col1` is not reused), the final table keys `[col3, col2]` are distinct and
minted, and the counter is `3`. -/
theorem C8_witness :
    (runOps (DataModel.init, []) [TableOp.insertCols 0 2, TableOp.removeCols 0 1,
      TableOp.insertCols 0 1]).2 = ["col1", "col2", "col3"] ∧
    (runOps (DataModel.init, []) [TableOp.insertCols 0 2, TableOp.removeCols 0 1,
      TableOp.insertCols 0 1]).2.Nodup ∧
    dkeys (runOps (DataModel.init, []) [TableOp.insertCols 0 2,
      TableOp.removeCols 0 1, TableOp.insertCols 0 1]).1.data = ["col3", "col2"] ∧
    (runOps (DataModel.init, []) [TableOp.insertCols 0 2, TableOp.removeCols 0 1,
      TableOp.insertCols 0 1]).1.newColNum = 3 :=
  ⟨by decide,
   (C8_label_uniqueness [TableOp.insertCols 0 2, TableOp.removeCols 0 1,
     TableOp.insertCols 0 1]).1,
   by decide, by decide⟩
